import Mathlib

/-!
Verification of the identity-and-dedup engine of the rss-bot repository
(`src/main.rs`): the entry identity resolver, the bounded per-feed dedup
store, the state persistence layer, and the poll-cycle processing loop,
shallowly embedded in Lean.

External collaborators (HTTP fetch, feed parsing, the Telegram sink, the
file system, the JSON codec of serde) appear as oracles or as explicit
value-level models; everything the repository's own code does is
translated directly.
-/

namespace RssBot

/-! ## Dedup store (`State` in `src/main.rs`)

`State.seen_per_feed` is a `HashMap<String, VecDeque<String>>` in the
source.  The map is embedded as an association list (the hash map's
iteration order is irrelevant to every property below; the association
list fixes one), a deque as a `List` with its front at the head. -/

/-- Association-list lookup, embedding `HashMap::get`. -/
def lookupRecord : List (String × List String) → String → Option (List String)
  | [], _ => none
  | (k, v) :: rest, url => if k = url then some v else lookupRecord rest url

/-- Association-list insert/replace, embedding `HashMap::entry(..).or_insert`
followed by in-place mutation: an existing key keeps its position, a new
key is added. -/
def insertRecord : List (String × List String) → String → List String → List (String × List String)
  | [], url, v => [(url, v)]
  | (k, w) :: rest, url, v =>
    if k = url then (url, v) :: rest else (k, w) :: insertRecord rest url v

/-- The persistent dedup state: feed URL → queue of seen item IDs
(oldest at front).  Embeds `struct State` of `src/main.rs`. -/
structure State where
  seen_per_feed : List (String × List String)
deriving DecidableEq, Repr

instance : Inhabited State := ⟨⟨[]⟩⟩

/-- `Default::default()` for `State`: the empty map. -/
def State.default : State := ⟨[]⟩

/-- Embeds `State::ensure_feed`: `self.seen_per_feed.entry(url).or_default()`. -/
def State.ensure_feed (st : State) (url : String) : State :=
  ⟨insertRecord st.seen_per_feed url ((lookupRecord st.seen_per_feed url).getD [])⟩

/-- Embeds `State::seen`: membership of `id` in the feed's queue, `false`
for an absent feed. -/
def State.seen (st : State) (url id : String) : Bool :=
  match lookupRecord st.seen_per_feed url with
  | some dq => id ∈ dq
  | none => false

/-- The `while dq.len() > dedup_limit { dq.pop_front(); }` loop of
`State::mark_sent`, popping from the front until the length bound holds. -/
def popFrontWhile (dq : List String) (limit : Nat) : List String :=
  if _h : dq.length > limit then
    popFrontWhile dq.tail limit
  else
    dq
termination_by dq.length
decreasing_by
  cases dq with
  | nil => simp at _h
  | cons a l => simp

/-- Embeds `State::mark_sent`: look up (creating if absent) the feed's
queue; return unchanged if `id` is already present; otherwise push `id`
at the back and pop from the front while the length exceeds
`dedup_limit`. -/
def State.mark_sent (st : State) (url id : String) (dedup_limit : Nat) : State :=
  let dq := (lookupRecord st.seen_per_feed url).getD []
  if id ∈ dq then
    ⟨insertRecord st.seen_per_feed url dq⟩
  else
    ⟨insertRecord st.seen_per_feed url (popFrontWhile (dq ++ [id]) dedup_limit)⟩

/-- Iterated `mark_sent` over a list of identities, in order — the shape of
the repository's own unit test `test_state_mark_and_dedup_limit`. -/
def mark_list (st : State) (url : String) (ids : List String) (k : Nat) : State :=
  ids.foldl (fun s i => s.mark_sent url i k) st

/-! ## State persistence (`State::load`, `save_state_atomic`)

The source serializes `State` with serde_json and reads/writes files.
serde_json's byte form of this shape is deterministic and injective, so
files are modelled at the JSON *value* level: a file system maps a path
to the JSON value stored there (`none` when no file exists).  The JSON
codec for the `State` shape — an object of string arrays — is embedded
concretely: encoding follows serde's `Serialize` for
`HashMap<String, VecDeque<String>>`, decoding its `Deserialize`, which
fails on any JSON value not of that shape. -/

/-- JSON values, the image of serde_json's data model needed here. -/
inductive Json where
  | null
  | bool (b : Bool)
  | num (n : Int)
  | str (s : String)
  | arr (elems : List Json)
  | obj (fields : List (String × Json))
deriving Repr

/-- serde's serialization of `State`: an object mapping each feed URL to
the array of its identity strings, in queue order. -/
def encodeState (st : State) : Json :=
  Json.obj (st.seen_per_feed.map (fun kv => (kv.1, Json.arr (kv.2.map Json.str))))

/-- serde's deserialization of a JSON array expected to hold strings. -/
def decodeStrings : List Json → Option (List String)
  | [] => some []
  | Json.str s :: rest => (decodeStrings rest).map (fun l => s :: l)
  | _ => none

/-- serde's deserialization of a `VecDeque<String>` value. -/
def decodeRecord : Json → Option (List String)
  | Json.arr js => decodeStrings js
  | _ => none

/-- serde's deserialization of the object's fields. -/
def decodePairs : List (String × Json) → Option (List (String × List String))
  | [] => some []
  | (k, v) :: rest =>
    match decodeRecord v, decodePairs rest with
    | some dq, some tl => some ((k, dq) :: tl)
    | _, _ => none

/-- serde's deserialization of a `State`, failing on any other shape. -/
def decodeState : Json → Option State
  | Json.obj kvs => (decodePairs kvs).map State.mk
  | _ => none

/-- The file system as seen by the persistence layer. -/
def FS := String → Option Json

/-- Embeds `State::load`: a missing file yields the default (empty)
state; an existing file is parsed, and a parse failure is an error
(`.context("parse state JSON")`), which `main` propagates fatally. -/
def State.load (fs : FS) (path : String) : Except String State :=
  match fs path with
  | some j =>
    match decodeState j with
    | some s => Except.ok s
    | none => Except.error "parse state JSON"
  | none => Except.ok State.default

/-- Model of `Path::with_extension("tmp")`: the final path component has
its last extension (a dot not in first position) replaced by `tmp`, or
`.tmp` appended when it has none. -/
def with_extension_tmp (p : String) : String :=
  let cs := p.data
  let revName := cs.reverse.takeWhile (fun c => c ≠ Char.ofNat 47)
  let fname := revName.reverse
  let dir := cs.take (cs.length - fname.length)
  let afterDot := revName.takeWhile (fun c => c ≠ Char.ofNat 46)
  let stem :=
    if afterDot.length + 1 < fname.length then
      fname.take (fname.length - afterDot.length - 1)
    else
      fname
  String.mk (dir ++ stem ++ (Char.ofNat 46 :: [Char.ofNat 116, Char.ofNat 109, Char.ofNat 112]))

/-- Embeds `save_state_atomic`: serialize the state, write it to the
`.tmp` sibling, then atomically rename the sibling onto the target.
(`create_dir_all` has no counterpart at this level of abstraction.) -/
def save_state_atomic (fs : FS) (path : String) (st : State) : FS :=
  let tmp := with_extension_tmp path
  let fs1 : FS := fun q => if q = tmp then some (encodeState st) else fs q
  fun q => if q = path then fs1 tmp else if q = tmp then none else fs1 q

/-! ## Entry identity (`entry_id` and the display helpers)

`feed_rs::model::Entry` is embedded with exactly the fields the program
reads: `title`/`summary` hold the `content` text of the `Text` values,
`published` holds the value `published.timestamp()` would return (a unix
timestamp), `content` keeps the `Content { body }` nesting the code
traverses with `and_then`.  The SHA-1 fallback is embedded concretely:
UTF-8 byte encoding and the full SHA-1 compression function. -/

structure Link where
  rel : Option String
  href : String
deriving DecidableEq, Repr

structure Content where
  body : Option String
deriving DecidableEq, Repr

structure Entry where
  id : String
  links : List Link
  title : Option String
  summary : Option String
  content : Option Content
  published : Option Int
deriving DecidableEq, Repr

/-- The first link whose `rel` (defaulting to `"alternate"` when absent)
is `"alternate"` — the selector used in `entry_id` and `entry_link`. -/
def alternate_link (e : Entry) : Option String :=
  (e.links.find? (fun l => l.rel.getD "alternate" == "alternate")).map (fun l => l.href)

/-- UTF-8 encoding of one character, the byte sequence a Rust `&str`
holds for it. -/
def utf8Char (c : Char) : List Nat :=
  let n := c.toNat
  if n < 0x80 then [n]
  else if n < 0x800 then [0xC0 + n / 0x40, 0x80 + n % 0x40]
  else if n < 0x10000 then
    [0xE0 + n / 0x1000, 0x80 + (n / 0x40) % 0x40, 0x80 + n % 0x40]
  else
    [0xF0 + n / 0x40000, 0x80 + (n / 0x1000) % 0x40, 0x80 + (n / 0x40) % 0x40, 0x80 + n % 0x40]

/-- UTF-8 bytes of a string. -/
def utf8Bytes (s : String) : List Nat := s.data.flatMap utf8Char

/-- Truncation to a 32-bit word. -/
def w32 (n : Nat) : Nat := n % 4294967296

/-- 32-bit left rotation. -/
def rotl (n x : Nat) : Nat := w32 (x * 2 ^ n + x / 2 ^ (32 - n))

/-- The eight big-endian bytes of the 64-bit message bit length. -/
def beBytes8 (n : Nat) : List Nat :=
  [n / 2 ^ 56 % 256, n / 2 ^ 48 % 256, n / 2 ^ 40 % 256, n / 2 ^ 32 % 256,
   n / 2 ^ 24 % 256, n / 2 ^ 16 % 256, n / 2 ^ 8 % 256, n % 256]

/-- SHA-1 message padding: `0x80`, zeros to 56 mod 64, then the bit
length, big-endian. -/
def sha1Pad (m : List Nat) : List Nat :=
  m ++ 0x80 :: (List.replicate ((64 - (m.length + 9) % 64) % 64) 0 ++ beBytes8 (8 * m.length))

/-- Big-endian 32-bit words of a byte block. -/
def toWords : List Nat → List Nat
  | b0 :: b1 :: b2 :: b3 :: rest => (((b0 * 256 + b1) * 256 + b2) * 256 + b3) :: toWords rest
  | _ => []

/-- SHA-1 message schedule, kept most-recent-first: each step pushes
`rotl 1 (w16 ^ w14 ^ w8 ^ w3)` counted from the back. -/
def extendWords (wr : List Nat) : Nat → List Nat
  | 0 => wr
  | n + 1 =>
    extendWords
      (rotl 1 (Nat.xor (Nat.xor (wr.getD 2 0) (wr.getD 7 0))
        (Nat.xor (wr.getD 13 0) (wr.getD 15 0))) :: wr) n

/-- SHA-1 round function, by round index. -/
def sha1F (i b c d : Nat) : Nat :=
  if i < 20 then Nat.lor (Nat.land b c) (Nat.land (4294967295 - b) d)
  else if i < 40 then Nat.xor (Nat.xor b c) d
  else if i < 60 then Nat.lor (Nat.lor (Nat.land b c) (Nat.land b d)) (Nat.land c d)
  else Nat.xor (Nat.xor b c) d

/-- SHA-1 round constants, by round index. -/
def sha1K (i : Nat) : Nat :=
  if i < 20 then 0x5A827999
  else if i < 40 then 0x6ED9EBA1
  else if i < 60 then 0x8F1BBCDC
  else 0xCA62C1D6

/-- One SHA-1 compression round. -/
def sha1Round (st : Nat × Nat × Nat × Nat × Nat) (iw : Nat × Nat) :
    Nat × Nat × Nat × Nat × Nat :=
  let (a, b, c, d, e) := st
  let (i, w) := iw
  (w32 (rotl 5 a + sha1F i b c d + e + sha1K i + w), a, rotl 30 b, c, d)

/-- One 64-byte SHA-1 block folded into the running hash. -/
def sha1Block (h : Nat × Nat × Nat × Nat × Nat) (block : List Nat) :
    Nat × Nat × Nat × Nat × Nat :=
  let ws := (extendWords (toWords block).reverse 64).reverse
  let (h0, h1, h2, h3, h4) := h
  let (a, b, c, d, e) :=
    ((List.range 80).zip ws).foldl sha1Round (h0, h1, h2, h3, h4)
  (w32 (h0 + a), w32 (h1 + b), w32 (h2 + c), w32 (h3 + d), w32 (h4 + e))

/-- Structural worker for `chunks64`: the fuel bounds the number of
blocks, so the list's own length is always enough. -/
def chunksGo : Nat → List Nat → List (List Nat)
  | 0, _ => []
  | _ + 1, [] => []
  | fuel + 1, x :: xs => (x :: xs).take 64 :: chunksGo fuel ((x :: xs).drop 64)

/-- 64-byte chunks of a byte list. -/
def chunks64 (l : List Nat) : List (List Nat) :=
  chunksGo l.length l

/-- Lowercase hex digit. -/
def hexDigit (n : Nat) : Char :=
  if n < 10 then Char.ofNat (48 + n) else Char.ofNat (87 + n)

/-- Eight lowercase hex digits of a 32-bit word, as `{:08x}`. -/
def hexWord (w : Nat) : List Char :=
  [hexDigit (w / 2 ^ 28 % 16), hexDigit (w / 2 ^ 24 % 16), hexDigit (w / 2 ^ 20 % 16),
   hexDigit (w / 2 ^ 16 % 16), hexDigit (w / 2 ^ 12 % 16), hexDigit (w / 2 ^ 8 % 16),
   hexDigit (w / 2 ^ 4 % 16), hexDigit (w % 16)]

/-- Lowercase hex SHA-1 digest of a byte sequence, as
`format!("{:x}", hasher.finalize())` prints it. -/
def sha1Hex (m : List Nat) : String :=
  let d := (chunks64 (sha1Pad m)).foldl sha1Block
    (0x67452301, 0xEFCDAB89, 0x98BADCFE, 0x10325476, 0xC3D2E1F0)
  String.mk (hexWord d.1 ++ hexWord d.2.1 ++ hexWord d.2.2.1 ++ hexWord d.2.2.2.1 ++
    hexWord d.2.2.2.2)

/-- The bytes `entry_id`'s fallback feeds the hasher: title-or-empty,
then `"\n" + href` for the alternate link if any, then `"\n" + summary`
if both a summary and a published time exist, then `"\n" + body` if body
content exists — each `hasher.update` call concatenated in order. -/
def sha1_input (e : Entry) : List Nat :=
  utf8Bytes (e.title.getD "") ++
  (match alternate_link e with
   | some href => utf8Bytes "\n" ++ utf8Bytes href
   | none => []) ++
  (match e.summary, e.published with
   | some summary, some _ => utf8Bytes "\n" ++ utf8Bytes summary
   | _, _ => []) ++
  (match e.content with
   | some c =>
     match c.body with
     | some body => utf8Bytes "\n" ++ utf8Bytes body
     | none => []
   | none => [])

/-- Embeds `entry_id`: the four-rule priority chain of `src/main.rs`. -/
def entry_id (e : Entry) : String :=
  if e.id ≠ "" then "guid:" ++ e.id
  else
    match alternate_link e, e.published with
    | some link, some published => "link:" ++ link ++ ":" ++ toString published
    | _, _ =>
      match e.title, e.published with
      | some title, some published => "titlepub:" ++ title ++ toString published
      | _, _ => "sha1:" ++ sha1Hex (sha1_input e)

/-- Rust's `char::is_whitespace`: the Unicode White_Space property —
tab, LF, VT, FF, CR, space, NEL, NBSP, Ogham space mark, the
U+2000..U+200A spaces, line and paragraph separators, narrow no-break
space, medium mathematical space and ideographic space. -/
def rust_is_whitespace (c : Char) : Bool :=
  let n := c.toNat
  n = 0x9 ∨ n = 0xA ∨ n = 0xB ∨ n = 0xC ∨ n = 0xD ∨ n = 0x20 ∨
  n = 0x85 ∨ n = 0xA0 ∨ n = 0x1680 ∨ (0x2000 ≤ n ∧ n ≤ 0x200A) ∨
  n = 0x2028 ∨ n = 0x2029 ∨ n = 0x202F ∨ n = 0x205F ∨ n = 0x3000

/-- Rust's `str::trim`: both ends stripped of Unicode White_Space
characters. -/
def rust_trim (s : String) : String :=
  String.mk (((s.data.dropWhile rust_is_whitespace).reverse.dropWhile
    rust_is_whitespace).reverse)

/-- Embeds `entry_title`: the title when present and not blank, else a
placeholder. -/
def entry_title (e : Entry) : String :=
  match e.title with
  | some t => if rust_trim t = "" then "[no title]" else t
  | none => "[no title]"

/-- Embeds `entry_link`: the alternate link if any, else the first link,
else the empty string. -/
def entry_link (e : Entry) : String :=
  match alternate_link e with
  | some href => href
  | none =>
    match e.links.head? with
    | some l => l.href
    | none => ""

/-! ## Feed cycle processing (`process_feed`, `run_once`)

The external collaborators are oracles fixed for one cycle: the fetch
outcome per feed URL, the sink's success per (feed, entry) delivery, and
the persistence write's success per (feed, entry) save attempt.  The
accumulator mirrors `process_feed`'s loop state (`state`, `sent_count`)
and adds two observation logs — the identities whose delivery was
attempted and those actually delivered, in order — plus the last
successfully persisted state, so that ordering and durability claims
are statable.  Logging (`error!`/`warn!`/`debug!`) and the pacing
`sleep`s have no effect on any modelled value and are dropped. -/

/-- A parsed feed document as `process_feed` consumes it: optional title
and the entries in upstream order (newest first). -/
structure FeedDoc where
  title : Option String
  entries : List Entry
deriving Repr

/-- Outcome of `fetch_feed` for one URL: `Ok(None)` (not modified),
`Ok(Some(feed))`, or `Err(e)`. -/
inductive FetchResult where
  | notModified
  | parsed (doc : FeedDoc)
  | failed (err : String)
deriving Repr

/-- The cycle's external collaborators. -/
structure CycleEnv where
  fetch : String → FetchResult
  send : String → Entry → Bool
  save : String → Entry → Bool

/-- Loop state of `process_feed`, with observation logs. -/
structure PfAcc where
  st : State
  disk : Option State
  count : Nat
  attempts : List String
  delivered : List String
deriving Repr

/-- One iteration of `process_feed`'s entry loop: resolve the identity;
skip if seen; otherwise attempt delivery; on failure log and continue;
on success count it, `mark_sent`, and attempt to persist (a failed save
only leaves the disk state behind). -/
def process_entry (env : CycleEnv) (url : String) (dedup_limit : Nat)
    (acc : PfAcc) (e : Entry) : PfAcc :=
  let id := entry_id e
  if acc.st.seen url id then acc
  else if env.send url e = false then
    { acc with attempts := acc.attempts ++ [id] }
  else
    let st1 := acc.st.mark_sent url id dedup_limit
    { st := st1
      disk := if env.save url e then some st1 else acc.disk
      count := acc.count + 1
      attempts := acc.attempts ++ [id]
      delivered := acc.delivered ++ [id] }

/-- The entry loop of `process_feed` over a list of entries (already in
iteration order). -/
def process_entries (env : CycleEnv) (url : String) (dedup_limit : Nat)
    (acc : PfAcc) (entries : List Entry) : PfAcc :=
  entries.foldl (process_entry env url dedup_limit) acc

/-- The feed display tag: the document title when present and not
blank, else the feed URL. -/
def feed_tag (doc : FeedDoc) (url : String) : String :=
  match doc.title with
  | some t => if rust_trim t = "" then url else t
  | none => url

/-- Embeds `process_feed`: fetch failure propagates as the error; a
not-modified response yields zero deliveries; a parsed document has its
entries iterated in reverse (`feed.entries.iter().rev()`, oldest
first). -/
def process_feed (env : CycleEnv) (url : String) (dedup_limit : Nat)
    (st : State) (disk : Option State) : Except String (PfAcc × String) :=
  match env.fetch url with
  | FetchResult.failed e => Except.error e
  | FetchResult.notModified =>
    Except.ok ({ st := st, disk := disk, count := 0, attempts := [], delivered := [] }, url)
  | FetchResult.parsed doc =>
    Except.ok
      (process_entries env url dedup_limit
        { st := st, disk := disk, count := 0, attempts := [], delivered := [] }
        doc.entries.reverse,
       feed_tag doc url)

/-- Loop state of `run_once`: the threaded dedup state, the persisted
state, and each feed's outcome (its delivered count and attempted
identities, or its error) in feed order. -/
structure CycleAcc where
  st : State
  disk : Option State
  results : List (String × Except String (Nat × List String))
deriving Repr

/-- One iteration of `run_once`'s feed loop: `ensure_feed`, then
`process_feed`; an error is recorded (logged) and does not propagate. -/
def feed_step (env : CycleEnv) (dedup_limit : Nat) (acc : CycleAcc)
    (url : String) : CycleAcc :=
  let st1 := acc.st.ensure_feed url
  match process_feed env url dedup_limit st1 acc.disk with
  | Except.error e =>
    { st := st1, disk := acc.disk, results := acc.results ++ [(url, Except.error e)] }
  | Except.ok (pf, _tag) =>
    { st := pf.st, disk := pf.disk,
      results := acc.results ++ [(url, Except.ok (pf.count, pf.attempts))] }

/-- Embeds `run_once`: the feed loop over the configured URLs, in
order. -/
def run_once (env : CycleEnv) (dedup_limit : Nat) (feeds : List String)
    (st : State) (disk : Option State) : CycleAcc :=
  feeds.foldl (feed_step env dedup_limit) { st := st, disk := disk, results := [] }

/-! ## Configuration parsing helper (`dequote`) -/

/-- The double-quote character. -/
def quoteChar : Char := Char.ofNat 34

/-- The single-quote character. -/
def apostChar : Char := Char.ofNat 39

/-- Embeds `dequote`, with `none` marking a panic of the byte-slice
expression `&s[1..s.len() - 1]`: after trimming, when the string both
starts and ends with the same quote character the code slices from byte
1 to byte `len - 1`.  For a one-byte string — a lone quote — that range
is the reversed `1..0`, which panics in Rust; otherwise the first and
last bytes are single-byte ASCII quotes, so the slice is exactly the
characters without the first and the last. -/
def dequote (s : String) : Option String :=
  let t := (rust_trim s).data
  if (t.head? = some quoteChar ∧ t.getLast? = some quoteChar) ∨
     (t.head? = some apostChar ∧ t.getLast? = some apostChar) then
    if 2 ≤ t.length then some (String.mk (t.drop 1).dropLast) else none
  else
    some (String.mk t)

/-! ### Basic lemmas about the association list and the trimming loop -/

theorem lookupRecord_insert_self (l : List (String × List String)) (url : String)
    (v : List String) : lookupRecord (insertRecord l url v) url = some v := by
  induction l with
  | nil => simp [insertRecord, lookupRecord]
  | cons kw rest ih =>
    obtain ⟨k, w⟩ := kw
    by_cases h : k = url <;> simp [insertRecord, lookupRecord, h, ih]

theorem lookupRecord_insert_ne (l : List (String × List String)) (url url' : String)
    (v : List String) (h : url' ≠ url) :
    lookupRecord (insertRecord l url v) url' = lookupRecord l url' := by
  induction l with
  | nil => simp [insertRecord, lookupRecord, Ne.symm h]
  | cons kw rest ih =>
    obtain ⟨k, w⟩ := kw
    by_cases hk : k = url
    · subst hk
      simp [insertRecord, lookupRecord, Ne.symm h]
    · simp [insertRecord, lookupRecord, hk, ih]

theorem insertRecord_insert_same (l : List (String × List String)) (url : String)
    (v w : List String) :
    insertRecord (insertRecord l url v) url w = insertRecord l url w := by
  induction l with
  | nil => simp [insertRecord]
  | cons kw rest ih =>
    obtain ⟨k, u⟩ := kw
    by_cases h : k = url <;> simp [insertRecord, h, ih]

/-- The trimming loop is `List.drop` of the length excess. -/
theorem popFrontWhile_eq_drop (dq : List String) (limit : Nat) :
    popFrontWhile dq limit = dq.drop (dq.length - limit) := by
  induction dq with
  | nil => simp [popFrontWhile]
  | cons a l ih =>
    rw [popFrontWhile]
    by_cases h : (a :: l).length > limit
    · rw [dif_pos h]
      simp only [List.tail_cons]
      rw [ih]
      have h2 : (a :: l).length - limit = (l.length - limit) + 1 := by
        simp only [List.length_cons] at h ⊢
        omega
      rw [h2, List.drop_succ_cons]
    · rw [dif_neg h]
      have h0 : (a :: l).length - limit = 0 := by
        simp only [List.length_cons] at h ⊢
        omega
      rw [h0, List.drop_zero]

theorem popFrontWhile_length_le (dq : List String) (limit : Nat) :
    (popFrontWhile dq limit).length ≤ limit := by
  rw [popFrontWhile_eq_drop, List.length_drop]
  omega

theorem popFrontWhile_subset (dq : List String) (limit : Nat) :
    popFrontWhile dq limit ⊆ dq := by
  rw [popFrontWhile_eq_drop]
  exact List.drop_subset _ _

/-- What `mark_sent` leaves in the touched feed's record. -/
theorem mark_sent_record (st : State) (url id : String) (k : Nat) :
    lookupRecord (st.mark_sent url id k).seen_per_feed url =
      some (if id ∈ (lookupRecord st.seen_per_feed url).getD [] then
              (lookupRecord st.seen_per_feed url).getD []
            else
              popFrontWhile ((lookupRecord st.seen_per_feed url).getD [] ++ [id]) k) := by
  unfold State.mark_sent
  by_cases h : id ∈ (lookupRecord st.seen_per_feed url).getD [] <;>
    simp [h, lookupRecord_insert_self]

/-- `mark_sent` does not touch any other feed's record. -/
theorem mark_sent_record_ne (st : State) (url url' id : String) (k : Nat)
    (h : url' ≠ url) :
    lookupRecord (st.mark_sent url id k).seen_per_feed url' =
      lookupRecord st.seen_per_feed url' := by
  unfold State.mark_sent
  by_cases hm : id ∈ (lookupRecord st.seen_per_feed url).getD [] <;>
    simp [hm, lookupRecord_insert_ne _ _ _ _ h]

/-- Anything in the record after `mark_sent` was there before or is the new id. -/
theorem mem_of_mem_mark_sent (st : State) (url id id' : String) (k : Nat)
    (h : (st.mark_sent url id k).seen url id' = true) :
    st.seen url id' = true ∨ id' = id := by
  unfold State.seen at h ⊢
  rw [mark_sent_record] at h
  by_cases hm : id ∈ (lookupRecord st.seen_per_feed url).getD []
  · rw [if_pos hm] at h
    cases he : lookupRecord st.seen_per_feed url with
    | none => simp [he] at h
    | some dq => left; simp [he] at h ⊢; simpa [he] using h
  · rw [if_neg hm] at h
    simp only [decide_eq_true_eq] at h
    have hsub := popFrontWhile_subset
      ((lookupRecord st.seen_per_feed url).getD [] ++ [id]) k
    have : id' ∈ (lookupRecord st.seen_per_feed url).getD [] ++ [id] := hsub h
    rcases List.mem_append.mp this with h1 | h1
    · left
      cases he : lookupRecord st.seen_per_feed url with
      | none => simp [he] at h1
      | some dq => simp [he] at h1 ⊢; exact h1
    · right; simpa using h1

/-- Marking distinct fresh identities on a record maintains a sliding
window: the record is always the last `k` of the identities pushed so
far. -/
theorem mark_list_window (url : String) (k : Nat) :
    ∀ (ids : List String) (st : State) (dq : List String),
      lookupRecord st.seen_per_feed url = some dq →
      dq.length ≤ k →
      (dq ++ ids).Nodup →
      lookupRecord (mark_list st url ids k).seen_per_feed url =
        some ((dq ++ ids).drop ((dq ++ ids).length - k)) := by
  intro ids
  induction ids with
  | nil =>
    intro st dq hlook hlen _
    have h0 : dq.length - k = 0 := Nat.sub_eq_zero_of_le hlen
    simp [mark_list, h0, hlook]
  | cons id rest ih =>
    intro st dq hlook hlen hnd
    have hid : id ∉ dq := by
      intro hmem
      rcases List.nodup_append.mp hnd with ⟨-, -, hdisj⟩
      exact hdisj hmem (List.mem_cons_self id rest)
    have hstep : lookupRecord (st.mark_sent url id k).seen_per_feed url =
        some (popFrontWhile (dq ++ [id]) k) := by
      rw [mark_sent_record, hlook]
      simp [hid]
    have hq : popFrontWhile (dq ++ [id]) k =
        (dq ++ [id]).drop ((dq ++ [id]).length - k) := popFrontWhile_eq_drop _ _
    have hsub : List.Sublist (popFrontWhile (dq ++ [id]) k) (dq ++ [id]) := by
      rw [hq]; exact List.drop_sublist _ _
    have hnd' : (popFrontWhile (dq ++ [id]) k ++ rest).Nodup := by
      have hsub2 : List.Sublist (popFrontWhile (dq ++ [id]) k ++ rest)
          ((dq ++ [id]) ++ rest) := hsub.append_right rest
      have hall : ((dq ++ [id]) ++ rest).Nodup := by
        simpa using hnd
      exact hall.sublist hsub2
    have hlen' : (popFrontWhile (dq ++ [id]) k).length ≤ k := popFrontWhile_length_le _ _
    have hrec := ih (st.mark_sent url id k) (popFrontWhile (dq ++ [id]) k) hstep hlen' hnd'
    have hfold : mark_list st url (id :: rest) k =
        mark_list (st.mark_sent url id k) url rest k := rfl
    rw [hfold, hrec]
    have hd : (dq ++ [id]).length - k ≤ (dq ++ [id]).length := Nat.sub_le _ _
    congr 1
    rw [hq, ← List.drop_append_of_le_length hd, List.drop_drop]
    have hx : (dq ++ [id]) ++ rest = dq ++ id :: rest := by simp
    rw [hx]
    congr 1
    simp only [List.length_drop, List.length_append, List.length_cons, List.length_nil]
    omega

/-- With a positive limit, a freshly pushed identity survives the
trimming loop: only elements in front of it can be popped. -/
theorem mem_popFrontWhile_append_self (dq : List String) (id : String) (k : Nat)
    (hk : 0 < k) : id ∈ popFrontWhile (dq ++ [id]) k := by
  rw [popFrontWhile_eq_drop]
  have hd : (dq ++ [id]).length - k ≤ dq.length := by
    simp only [List.length_append, List.length_cons, List.length_nil]
    omega
  rw [List.drop_append_of_le_length hd]
  simp

/-- With limit 0 the trimming loop empties the queue. -/
theorem popFrontWhile_zero (dq : List String) : popFrontWhile dq 0 = [] := by
  rw [popFrontWhile_eq_drop]
  simp

/-- C2: a feed record of length at most `dedup_limit` keeps length at most
`dedup_limit` across `mark_sent`; and marking more than `k` distinct
identities with `dedupLimit = k` on an initially empty record leaves
exactly the `k` most recently marked identities, in insertion order,
oldest evicted first, so the record's length is exactly `k`. -/
theorem mark_sent_bounded_window :
    (∀ (st : State) (url id : String) (k : Nat),
       ((lookupRecord st.seen_per_feed url).getD []).length ≤ k →
       ((lookupRecord (st.mark_sent url id k).seen_per_feed url).getD []).length ≤ k) ∧
    (∀ (url : String) (k : Nat) (ids : List String),
       ids.Nodup → k < ids.length →
       lookupRecord (mark_list (State.default.ensure_feed url) url ids k).seen_per_feed url =
           some (ids.drop (ids.length - k)) ∧
         (ids.drop (ids.length - k)).length = k) := by
  constructor
  · intro st url id k hlen
    rw [mark_sent_record]
    by_cases h : id ∈ (lookupRecord st.seen_per_feed url).getD []
    · rw [if_pos h]
      exact hlen
    · rw [if_neg h]
      exact popFrontWhile_length_le _ _
  · intro url k ids hnd hk
    have hlook : lookupRecord (State.default.ensure_feed url).seen_per_feed url =
        some [] := by
      simp [State.ensure_feed, State.default, lookupRecord, lookupRecord_insert_self,
        insertRecord]
    have h := mark_list_window url k ids (State.default.ensure_feed url) [] hlook
      (by simp) (by simpa using hnd)
    refine ⟨by simpa using h, ?_⟩
    rw [List.length_drop]
    omega

/-- Witness for C2 at the spec's concrete scenario: `dedup_limit = 1` for
the length-preservation half, and the spec's `dedup_limit = 3` with
`id1..id4` for the window half, which leaves exactly `[id2, id3, id4]`. -/
theorem mark_sent_bounded_window_witness :
    ((lookupRecord (State.mk [("u", ["a"])]).seen_per_feed "u").getD []).length ≤ 1 ∧
    ((lookupRecord ((State.mk [("u", ["a"])]).mark_sent "u" "b" 1).seen_per_feed "u").getD
        []).length ≤ 1 ∧
    (["id1", "id2", "id3", "id4"] : List String).Nodup ∧
    lookupRecord (mark_list (State.default.ensure_feed "u") "u"
          ["id1", "id2", "id3", "id4"] 3).seen_per_feed "u" =
        some ["id2", "id3", "id4"] := by
  refine ⟨by decide, mark_sent_bounded_window.1 _ "u" "b" 1 (by decide), by decide, ?_⟩
  have h := (mark_sent_bounded_window.2 "u" 3 ["id1", "id2", "id3", "id4"]
    (by decide) (by decide)).1
  simpa using h

/-- C6: `mark_sent` is idempotent — a second call with the same feed URL,
identity and limit leaves the state (hence the feed record's length and
membership) exactly as after the first call. -/
theorem mark_sent_idempotent (st : State) (url id : String) (k : Nat) :
    (st.mark_sent url id k).mark_sent url id k = st.mark_sent url id k := by
  by_cases hmem : id ∈ (lookupRecord st.seen_per_feed url).getD []
  · have h1 : st.mark_sent url id k =
        ⟨insertRecord st.seen_per_feed url ((lookupRecord st.seen_per_feed url).getD [])⟩ := by
      simp [State.mark_sent, hmem]
    rw [h1]
    simp [State.mark_sent, lookupRecord_insert_self, hmem, insertRecord_insert_same]
  · have h1 : st.mark_sent url id k =
        ⟨insertRecord st.seen_per_feed url
          (popFrontWhile ((lookupRecord st.seen_per_feed url).getD [] ++ [id]) k)⟩ := by
      simp [State.mark_sent, hmem]
    rcases Nat.eq_zero_or_pos k with hk | hk
    · subst hk
      rw [h1, popFrontWhile_zero]
      have hq2 : popFrontWhile [id] 0 = [] := popFrontWhile_zero _
      simp [State.mark_sent, lookupRecord_insert_self, insertRecord_insert_same, hq2]
    · have hq : id ∈ popFrontWhile ((lookupRecord st.seen_per_feed url).getD [] ++ [id]) k :=
        mem_popFrontWhile_append_self _ _ _ hk
      rw [h1]
      simp [State.mark_sent, lookupRecord_insert_self, hq, insertRecord_insert_same]

/-! ### Persistence lemmas -/

theorem decodeStrings_map (l : List String) :
    decodeStrings (l.map Json.str) = some l := by
  induction l with
  | nil => rfl
  | cons s rest ih => simp [decodeStrings, ih]

theorem decodePairs_map (l : List (String × List String)) :
    decodePairs (l.map (fun kv => (kv.1, Json.arr (kv.2.map Json.str)))) = some l := by
  induction l with
  | nil => rfl
  | cons kv rest ih =>
    obtain ⟨k, dq⟩ := kv
    simp [decodePairs, decodeRecord, decodeStrings_map, ih]

/-- The JSON codec for the state shape is left-invertible. -/
theorem decodeState_encodeState (st : State) :
    decodeState (encodeState st) = some st := by
  obtain ⟨l⟩ := st
  simp [encodeState, decodeState, decodePairs_map]

/-- C3: loading a just-saved state file reproduces exactly the same
mapping of feed URLs to identity sequences, each sequence in the same
order — `load (save location S) location = ok S` for every file system,
location and state `S` (the empty state and multi-feed states included). -/
theorem load_save_round_trip (fs : FS) (path : String) (st : State) :
    State.load (save_state_atomic fs path st) path = Except.ok st := by
  have hsaved : save_state_atomic fs path st path = some (encodeState st) := by
    simp [save_state_atomic]
  simp [State.load, hsaved, decodeState_encodeState]

/-- C8: `load` returns the empty state without error when no file exists
at the location; it returns an error when a file exists but fails to
deserialize; and it never silently discards prior state — a successful
load of an existing file returns exactly what that file deserializes to. -/
theorem load_missing_empty_corrupt_error :
    (∀ (fs : FS) (path : String), fs path = none →
       State.load fs path = Except.ok State.default) ∧
    (∀ (fs : FS) (path : String) (j : Json), fs path = some j → decodeState j = none →
       State.load fs path = Except.error "parse state JSON") ∧
    (∀ (fs : FS) (path : String) (j : Json) (s : State), fs path = some j →
       State.load fs path = Except.ok s → decodeState j = some s) := by
  refine ⟨?_, ?_, ?_⟩
  · intro fs path h
    simp [State.load, h]
  · intro fs path j h hdec
    simp [State.load, h, hdec]
  · intro fs path j s h hload
    cases hdec : decodeState j with
    | some s' =>
      simp [State.load, h, hdec] at hload
      rw [hload]
    | none =>
      simp [State.load, h, hdec] at hload

/-- Witness for C8: a file system with no file at the location loads as
the empty state; one holding `null` (not a map of string arrays) fails
to deserialize and loads as an error. -/
theorem load_missing_empty_corrupt_error_witness :
    State.load (fun _ => none) "state.json" = Except.ok State.default ∧
    State.load (fun _ => some Json.null) "state.json" =
      Except.error "parse state JSON" := by
  constructor
  · exact load_missing_empty_corrupt_error.1 (fun _ => none) "state.json" rfl
  · exact load_missing_empty_corrupt_error.2.1 (fun _ => some Json.null) "state.json"
      Json.null rfl rfl

/-! ### Identity resolver lemmas -/

set_option maxRecDepth 100000 in
/-- The SHA-1 embedding reproduces the standard test vector for the
empty message. -/
theorem sha1Hex_nil_vector :
    sha1Hex (utf8Bytes "") = "da39a3ee5e6b4b0d3255bfef95601890afd80709" := by
  rfl

set_option maxRecDepth 100000 in
/-- The SHA-1 embedding reproduces the standard test vector for "abc". -/
theorem sha1Hex_abc_vector :
    sha1Hex (utf8Bytes "abc") = "a9993e364706816aba3e25717850c26c9cd0d89d" := by
  rfl

theorem string_length_pos_ne_empty (p : String) (hp : 0 < p.length) : p ≠ "" := by
  intro h
  rw [h] at hp
  simp [String.length] at hp

theorem string_append_ne_empty (p s : String) (hp : p ≠ "") : p ++ s ≠ "" := by
  apply string_length_pos_ne_empty
  rw [String.length_append]
  have hp0 : 0 < p.length := by
    rcases Nat.eq_zero_or_pos p.length with h0 | h0
    · exfalso
      apply hp
      apply String.ext
      cases hd : p.data with
      | nil => rfl
      | cons c cs => rw [String.length, hd] at h0; simp at h0
    · exact h0
  omega

theorem string_append_ne_empty_right (p s : String) (hs : s ≠ "") : p ++ s ≠ "" := by
  apply string_length_pos_ne_empty
  rw [String.length_append]
  have hs0 : 0 < s.length := by
    rcases Nat.eq_zero_or_pos s.length with h0 | h0
    · exfalso
      apply hs
      apply String.ext
      cases hd : s.data with
      | nil => rfl
      | cons c cs => rw [String.length, hd] at h0; simp at h0
    · exact h0
  omega

/-- C1: `entry_id` always returns a non-empty identity, chosen by the
first matching rule of the four-rule priority chain: a non-empty
upstream id gives `guid:` regardless of other fields; else an
alternate link (absent labels counting as alternate) plus a published
time gives `link:href:timestamp`; else title plus published gives
`titlepub:` with no separator; else the SHA-1 fallback over the
specified field concatenation. -/
theorem entry_id_priority_chain (e : Entry) :
    entry_id e ≠ "" ∧
    (e.id ≠ "" → entry_id e = "guid:" ++ e.id) ∧
    (∀ href ts, e.id = "" → alternate_link e = some href → e.published = some ts →
       entry_id e = "link:" ++ href ++ ":" ++ toString ts) ∧
    (∀ title ts, e.id = "" → alternate_link e = none → e.title = some title →
       e.published = some ts → entry_id e = "titlepub:" ++ title ++ toString ts) ∧
    (e.id = "" → (alternate_link e = none ∨ e.published = none) →
       (e.title = none ∨ e.published = none) →
       entry_id e = "sha1:" ++ sha1Hex (sha1_input e)) := by
  refine ⟨?_, ?_, ?_, ?_, ?_⟩
  · by_cases hid : e.id = ""
    · cases halt : alternate_link e <;> cases hpub : e.published <;>
        cases htit : e.title <;>
          simp only [entry_id, hid, ne_eq, not_true_eq_false, if_false, halt, hpub, htit] <;>
            first
              | exact string_append_ne_empty _ _ (by decide)
              | exact string_append_ne_empty _ _ (string_append_ne_empty _ _ (by decide))
              | exact string_append_ne_empty _ _
                  (string_append_ne_empty_right _ _ (by decide))
    · simp only [entry_id, hid, ne_eq, not_false_eq_true, if_true]
      exact string_append_ne_empty _ _ (by decide)
  · intro hid
    simp [entry_id, hid]
  · intro href ts hid halt hpub
    simp [entry_id, hid, halt, hpub]
  · intro title ts hid halt htit hpub
    simp [entry_id, hid, halt, htit, hpub]
  · intro hid h2 h3
    rcases h2 with h2 | h2 <;> rcases h3 with h3 | h3 <;>
      cases hpub : e.published <;> cases halt : alternate_link e <;>
        cases htit : e.title <;> simp_all [entry_id]

/-- Witness for C1: one concrete entry per rule.  An entry with id
`"abc"` resolves to `guid:abc` whatever else it carries; an id-less
entry with an unlabeled link and timestamp 5 resolves to
`link:http://x:5`; an id-less linkless entry with title `"T"` and
timestamp 7 resolves to `titlepub:T7`; an entry with no usable field
resolves via the SHA-1 fallback. -/
theorem entry_id_priority_chain_witness :
    entry_id ⟨"abc", [⟨none, "http://x"⟩], some "T", none, none, some 5⟩ =
        "guid:" ++ "abc" ∧
    entry_id ⟨"", [⟨none, "http://x"⟩], none, none, none, some 5⟩ =
        "link:" ++ "http://x" ++ ":" ++ toString (5 : Int) ∧
    entry_id ⟨"", [], some "T", none, none, some 7⟩ =
        "titlepub:" ++ "T" ++ toString (7 : Int) ∧
    entry_id ⟨"", [], none, none, none, none⟩ =
        "sha1:" ++ sha1Hex (sha1_input ⟨"", [], none, none, none, none⟩) := by
  refine ⟨?_, ?_, ?_, ?_⟩
  · exact (entry_id_priority_chain _).2.1 (by decide)
  · exact (entry_id_priority_chain _).2.2.1 "http://x" 5 rfl rfl rfl
  · exact (entry_id_priority_chain _).2.2.2.1 "T" 7 rfl rfl rfl rfl
  · exact (entry_id_priority_chain _).2.2.2.2 rfl (Or.inl rfl) (Or.inl rfl)

/-! ### Feed cycle lemmas -/

/-- Marking one identity cannot make a different identity seen. -/
theorem seen_mark_sent_false (st : State) (url id id' : String) (k : Nat)
    (h : st.seen url id' = false) (hne : id' ≠ id) :
    (st.mark_sent url id k).seen url id' = false := by
  cases hb : (st.mark_sent url id k).seen url id' with
  | false => rfl
  | true =>
    exfalso
    rcases mem_of_mem_mark_sent st url id id' k hb with h1 | h1
    · rw [h1] at h
      exact Bool.noConfusion h
    · exact hne h1

/-- The entry loop attempts delivery for every entry, in iteration
order, as long as identities are distinct and initially unseen —
regardless of which deliveries succeed. -/
theorem process_entries_attempts (env : CycleEnv) (url : String) (k : Nat) :
    ∀ (entries : List Entry) (acc : PfAcc),
      (entries.map entry_id).Nodup →
      (∀ e ∈ entries, acc.st.seen url (entry_id e) = false) →
      (process_entries env url k acc entries).attempts =
        acc.attempts ++ entries.map entry_id := by
  intro entries
  induction entries with
  | nil =>
    intro acc _ _
    simp [process_entries]
  | cons e rest ih =>
    intro acc hnd hunseen
    have hnd' : entry_id e ∉ rest.map entry_id ∧ (rest.map entry_id).Nodup :=
      List.nodup_cons.mp (by simpa using hnd)
    have hseen_e : acc.st.seen url (entry_id e) = false :=
      hunseen e (List.mem_cons_self e rest)
    have hstep : process_entries env url k acc (e :: rest) =
        process_entries env url k (process_entry env url k acc e) rest := rfl
    have hatt : (process_entry env url k acc e).attempts =
        acc.attempts ++ [entry_id e] := by
      by_cases hs : env.send url e = false <;> simp [process_entry, hseen_e, hs]
    have hstfalse : ∀ e' ∈ rest,
        (process_entry env url k acc e).st.seen url (entry_id e') = false := by
      intro e' he'
      have hef : acc.st.seen url (entry_id e') = false :=
        hunseen e' (List.mem_cons_of_mem e he')
      have hne : entry_id e' ≠ entry_id e := by
        intro hEq
        have hmm : entry_id e' ∈ rest.map entry_id := List.mem_map_of_mem entry_id he'
        rw [hEq] at hmm
        exact hnd'.1 hmm
      by_cases hs : env.send url e = false
      · simpa [process_entry, hseen_e, hs] using hef
      · simp only [process_entry, hseen_e, Bool.false_eq_true, if_false, hs]
        exact seen_mark_sent_false acc.st url (entry_id e) (entry_id e') k hef hne
    rw [hstep, ih (process_entry env url k acc e) hnd'.2 hstfalse, hatt]
    simp

/-- C4: when every entry of a parsed document is unseen (distinct
identities, none yet delivered), `process_feed` attempts deliveries in
exactly the reverse of the document's entry order — for upstream
entries `[E3, E2, E1]` (newest first), attempts happen as
`E1, E2, E3`. -/
theorem process_feed_delivery_order (env : CycleEnv) (url : String) (k : Nat)
    (st : State) (disk : Option State) (doc : FeedDoc)
    (hfetch : env.fetch url = FetchResult.parsed doc)
    (hnodup : (doc.entries.map entry_id).Nodup)
    (hunseen : ∀ e ∈ doc.entries, st.seen url (entry_id e) = false) :
    ∃ pf : PfAcc,
      process_feed env url k st disk = Except.ok (pf, feed_tag doc url) ∧
      pf.attempts = doc.entries.reverse.map entry_id := by
  refine ⟨process_entries env url k
    { st := st, disk := disk, count := 0, attempts := [], delivered := [] }
    doc.entries.reverse, ?_, ?_⟩
  · simp [process_feed, hfetch]
  · have hnd' : (doc.entries.reverse.map entry_id).Nodup := by
      rw [List.map_reverse, List.nodup_reverse]
      exact hnodup
    have hun' : ∀ e ∈ doc.entries.reverse,
        (({ st := st, disk := disk, count := 0, attempts := [], delivered := [] } :
          PfAcc)).st.seen url (entry_id e) = false := by
      intro e he
      exact hunseen e (List.mem_reverse.mp he)
    simpa using process_entries_attempts env url k doc.entries.reverse _ hnd' hun'

/-- Witness for C4: three distinct fresh entries in upstream order
`[E3, E2, E1]` are attempted as `E1, E2, E3`. -/
theorem process_feed_delivery_order_witness :
    ∃ pf : PfAcc,
      process_feed
          ⟨fun _ => FetchResult.parsed
            ⟨none, [⟨"3", [], none, none, none, none⟩,
                    ⟨"2", [], none, none, none, none⟩,
                    ⟨"1", [], none, none, none, none⟩]⟩,
           fun _ _ => true, fun _ _ => true⟩
          "u" 10 State.default none =
        Except.ok (pf, "u") ∧
      pf.attempts = ["guid:1", "guid:2", "guid:3"] := by
  obtain ⟨pf, h1, h2⟩ := process_feed_delivery_order
    ⟨fun _ => FetchResult.parsed
      ⟨none, [⟨"3", [], none, none, none, none⟩,
              ⟨"2", [], none, none, none, none⟩,
              ⟨"1", [], none, none, none, none⟩]⟩,
     fun _ _ => true, fun _ _ => true⟩
    "u" 10 State.default none
    ⟨none, [⟨"3", [], none, none, none, none⟩,
            ⟨"2", [], none, none, none, none⟩,
            ⟨"1", [], none, none, none, none⟩]⟩
    rfl (by decide) (by decide)
  exact ⟨pf, h1, by simpa using h2⟩

/-- C7: a failed delivery leaves the loop state untouched — the dedup
state, the persisted state, the sent count and the delivered log are
exactly as before the entry, only the attempt is logged — and the loop
continues with the remaining entries. -/
theorem process_entries_delivery_failure (env : CycleEnv) (url : String) (k : Nat)
    (acc : PfAcc) (e : Entry) (rest : List Entry)
    (hseen : acc.st.seen url (entry_id e) = false)
    (hsend : env.send url e = false) :
    process_entries env url k acc (e :: rest) =
      process_entries env url k
        { acc with attempts := acc.attempts ++ [entry_id e] } rest := by
  have hstep : process_entry env url k acc e =
      { acc with attempts := acc.attempts ++ [entry_id e] } := by
    simp [process_entry, hseen, hsend]
  show process_entries env url k (process_entry env url k acc e) rest = _
  rw [hstep]

/-- Witness for C7: a fresh entry whose delivery fails is only logged as
attempted; the second entry is still processed. -/
theorem process_entries_delivery_failure_witness :
    process_entries
        ⟨fun _ => FetchResult.notModified, fun _ _ => false, fun _ _ => true⟩
        "u" 5 { st := State.default, disk := none, count := 0, attempts := [],
                delivered := [] }
        [⟨"1", [], none, none, none, none⟩, ⟨"2", [], none, none, none, none⟩] =
      process_entries
        ⟨fun _ => FetchResult.notModified, fun _ _ => false, fun _ _ => true⟩
        "u" 5 { st := State.default, disk := none, count := 0,
                attempts := ["guid:1"], delivered := [] }
        [⟨"2", [], none, none, none, none⟩] := by
  have h := process_entries_delivery_failure
    ⟨fun _ => FetchResult.notModified, fun _ _ => false, fun _ _ => true⟩
    "u" 5 { st := State.default, disk := none, count := 0, attempts := [],
            delivered := [] }
    ⟨"1", [], none, none, none, none⟩ [⟨"2", [], none, none, none, none⟩]
    rfl rfl
  simpa [entry_id] using h

/-- C9: when delivery succeeds but the subsequent save fails, the
in-memory `mark_sent` mutation is kept (not rolled back), the persisted
state stays what it was, the entry is counted as sent, and the loop
continues with the remaining entries. -/
theorem process_entries_save_failure (env : CycleEnv) (url : String) (k : Nat)
    (acc : PfAcc) (e : Entry) (rest : List Entry)
    (hseen : acc.st.seen url (entry_id e) = false)
    (hsend : env.send url e = true)
    (hsave : env.save url e = false) :
    process_entries env url k acc (e :: rest) =
      process_entries env url k
        { st := acc.st.mark_sent url (entry_id e) k
          disk := acc.disk
          count := acc.count + 1
          attempts := acc.attempts ++ [entry_id e]
          delivered := acc.delivered ++ [entry_id e] } rest := by
  have hstep : process_entry env url k acc e =
      { st := acc.st.mark_sent url (entry_id e) k
        disk := acc.disk
        count := acc.count + 1
        attempts := acc.attempts ++ [entry_id e]
        delivered := acc.delivered ++ [entry_id e] } := by
    simp [process_entry, hseen, hsend, hsave]
  show process_entries env url k (process_entry env url k acc e) rest = _
  rw [hstep]

/-- Witness for C9: a delivered entry whose save fails stays marked in
memory while the persisted state is unchanged, and processing goes on. -/
theorem process_entries_save_failure_witness :
    process_entries
        ⟨fun _ => FetchResult.notModified, fun _ _ => true, fun _ _ => false⟩
        "u" 5 { st := State.default, disk := none, count := 0, attempts := [],
                delivered := [] }
        [⟨"1", [], none, none, none, none⟩, ⟨"2", [], none, none, none, none⟩] =
      process_entries
        ⟨fun _ => FetchResult.notModified, fun _ _ => true, fun _ _ => false⟩
        "u" 5 { st := State.default.mark_sent "u" "guid:1" 5, disk := none,
                count := 1, attempts := ["guid:1"], delivered := ["guid:1"] }
        [⟨"2", [], none, none, none, none⟩] := by
  have h := process_entries_save_failure
    ⟨fun _ => FetchResult.notModified, fun _ _ => true, fun _ _ => false⟩
    "u" 5 { st := State.default, disk := none, count := 0, attempts := [],
            delivered := [] }
    ⟨"1", [], none, none, none, none⟩ [⟨"2", [], none, none, none, none⟩]
    rfl rfl rfl
  simpa [entry_id] using h

/-! ### Cycle isolation lemmas -/

theorem ensure_feed_lookup_self (st : State) (url : String) :
    lookupRecord (st.ensure_feed url).seen_per_feed url =
      some ((lookupRecord st.seen_per_feed url).getD []) := by
  simp [State.ensure_feed, lookupRecord_insert_self]

theorem ensure_feed_lookup_ne (st : State) (url url' : String) (h : url' ≠ url) :
    lookupRecord (st.ensure_feed url).seen_per_feed url' =
      lookupRecord st.seen_per_feed url' := by
  simp [State.ensure_feed, lookupRecord_insert_ne _ _ _ _ h]

/-- The entry loop of one feed never touches another feed's record. -/
theorem process_entries_lookup_ne (env : CycleEnv) (url : String) (k : Nat)
    (url' : String) (h : url' ≠ url) :
    ∀ (entries : List Entry) (acc : PfAcc),
      lookupRecord (process_entries env url k acc entries).st.seen_per_feed url' =
        lookupRecord acc.st.seen_per_feed url' := by
  intro entries
  induction entries with
  | nil => intro acc; rfl
  | cons e rest ih =>
    intro acc
    have hstep : process_entries env url k acc (e :: rest) =
        process_entries env url k (process_entry env url k acc e) rest := rfl
    rw [hstep, ih]
    by_cases h1 : acc.st.seen url (entry_id e) = true
    · simp [process_entry, h1]
    · by_cases h2 : env.send url e = false
      · simp [process_entry, h1, h2]
      · simp [process_entry, h1, h2, mark_sent_record_ne _ _ _ _ _ h]

/-- One feed's whole step (ensure + fetch + deliveries) never touches
another feed's record. -/
theorem feed_step_lookup_ne (env : CycleEnv) (k : Nat) (acc : CycleAcc)
    (url url' : String) (h : url' ≠ url) :
    lookupRecord (feed_step env k acc url).st.seen_per_feed url' =
      lookupRecord acc.st.seen_per_feed url' := by
  unfold feed_step
  cases hf : env.fetch url with
  | failed e => simp [process_feed, hf, ensure_feed_lookup_ne _ _ _ h]
  | notModified => simp [process_feed, hf, ensure_feed_lookup_ne _ _ _ h]
  | parsed doc =>
    simp [process_feed, hf, process_entries_lookup_ne env url k url' h,
      ensure_feed_lookup_ne _ _ _ h]

/-- A feed whose fetch fails is still `ensure`d, contributes only its
error to the cycle report, and leaves the threaded disk state alone. -/
theorem feed_step_failed (env : CycleEnv) (k : Nat) (acc : CycleAcc)
    (url msg : String) (hf : env.fetch url = FetchResult.failed msg) :
    feed_step env k acc url =
      { st := acc.st.ensure_feed url, disk := acc.disk,
        results := acc.results ++ [(url, Except.error msg)] } := by
  unfold feed_step
  simp [process_feed, hf]

/-- Every feed step reports exactly one outcome for its feed. -/
theorem feed_step_results (env : CycleEnv) (k : Nat) (acc : CycleAcc) (url : String) :
    ∃ r, (feed_step env k acc url).results = acc.results ++ [(url, r)] := by
  unfold feed_step
  cases hp : process_feed env url k (acc.st.ensure_feed url) acc.disk with
  | error e => exact ⟨Except.error e, by simp [hp]⟩
  | ok p =>
    obtain ⟨pf, tag⟩ := p
    exact ⟨Except.ok (pf.count, pf.attempts), by simp [hp]⟩

/-- C5: in a cycle over `[A, B, C]` where fetching `B` fails, the cycle
is the sequential composition of the three feed steps (so `A` and `C`
are still processed with their deliveries and state mutations); `B`'s
step only ensures its record and logs the error, producing zero
deliveries; `B`'s record in the final state is exactly its prior
content (created empty when absent); and the report lists `A`'s
outcome, `B`'s error, and `C`'s outcome in order. -/
theorem run_once_partial_failure_isolation (env : CycleEnv) (k : Nat)
    (A B C : String) (st : State) (disk : Option State) (msg : String)
    (hB : env.fetch B = FetchResult.failed msg) (hBA : B ≠ A) (hBC : B ≠ C) :
    run_once env k [A, B, C] st disk =
        feed_step env k (feed_step env k
          (feed_step env k { st := st, disk := disk, results := [] } A) B) C ∧
    (∀ acc : CycleAcc, feed_step env k acc B =
        { st := acc.st.ensure_feed B, disk := acc.disk,
          results := acc.results ++ [(B, Except.error msg)] }) ∧
    lookupRecord (run_once env k [A, B, C] st disk).st.seen_per_feed B =
        some ((lookupRecord st.seen_per_feed B).getD []) ∧
    (∃ rA rC, (run_once env k [A, B, C] st disk).results =
        [(A, rA), (B, Except.error msg), (C, rC)]) := by
  have hrun : run_once env k [A, B, C] st disk =
      feed_step env k (feed_step env k
        (feed_step env k { st := st, disk := disk, results := [] } A) B) C := rfl
  have hBstep : ∀ acc : CycleAcc, feed_step env k acc B =
      { st := acc.st.ensure_feed B, disk := acc.disk,
        results := acc.results ++ [(B, Except.error msg)] } :=
    fun acc => feed_step_failed env k acc B msg hB
  refine ⟨hrun, hBstep, ?_, ?_⟩
  · rw [hrun]
    rw [feed_step_lookup_ne env k _ C B hBC, hBstep]
    show lookupRecord ((feed_step env k { st := st, disk := disk, results := [] }
      A).st.ensure_feed B).seen_per_feed B = _
    rw [ensure_feed_lookup_self, feed_step_lookup_ne env k _ A B hBA]
  · obtain ⟨rA, hA⟩ :=
      feed_step_results env k { st := st, disk := disk, results := [] } A
    obtain ⟨rC, hC⟩ := feed_step_results env k
      (feed_step env k
        (feed_step env k { st := st, disk := disk, results := [] } A) B) C
    refine ⟨rA, rC, ?_⟩
    rw [hrun, hC, hBstep]
    show (({ st := (feed_step env k { st := st, disk := disk, results := [] }
        A).st.ensure_feed B, disk := _, results := _ : CycleAcc }).results ++ _) = _
    simp [hA]

/-- Witness for C5: with `B`'s fetch failing and `A`, `C` not modified,
`B`'s record is created empty and stays empty, and the report is
`A`'s outcome, `B`'s error, `C`'s outcome. -/
theorem run_once_partial_failure_isolation_witness :
    lookupRecord (run_once
        ⟨fun u => if u = "B" then FetchResult.failed "boom" else FetchResult.notModified,
         fun _ _ => true, fun _ _ => true⟩
        5 ["A", "B", "C"] State.default none).st.seen_per_feed "B" = some [] ∧
    (∃ rA rC, (run_once
        ⟨fun u => if u = "B" then FetchResult.failed "boom" else FetchResult.notModified,
         fun _ _ => true, fun _ _ => true⟩
        5 ["A", "B", "C"] State.default none).results =
      [("A", rA), ("B", Except.error "boom"), ("C", rC)]) := by
  have h := run_once_partial_failure_isolation
    ⟨fun u => if u = "B" then FetchResult.failed "boom" else FetchResult.notModified,
     fun _ _ => true, fun _ _ => true⟩
    5 "A" "B" "C" State.default none "boom" rfl (by decide) (by decide)
  refine ⟨?_, h.2.2.2⟩
  exact h.2.2.1

/-! ### `dequote` safety -/

/-- The repository test's `dequote` cases hold in the embedding. -/
theorem dequote_test_cases :
    dequote "\"xyz\"" = some "xyz" ∧ dequote "noquotes" = some "noquotes" := by
  constructor <;> rfl

/-- Inputs whose trimmed form is a lone quote only because trimming
removes non-ASCII White_Space — a vertical tab before a double quote, a
no-break space before a single quote — panic exactly like the bare
quote does: the trim leaves one byte and the slice is `&s[1..0]`. -/
theorem dequote_unicode_whitespace_panics :
    dequote (String.mk [Char.ofNat 0xB, quoteChar]) = none ∧
    dequote (String.mk [Char.ofNat 0xA0, apostChar]) = none := by
  constructor <;> rfl

/-- Counterexample to C10 as stated: on the one-character input
consisting of a double quote, both the starts-with and the ends-with
test succeed on the same character, the slice `&s[1..0]` is out of
bounds, and `dequote` panics (modelled as `none`) instead of returning
a result. -/
theorem dequote_lone_quote_panics : dequote (String.mk [quoteChar]) = none := by
  rfl

/-- C10 amended: for every input string whose trimmed form is not a
lone quote character, `dequote` returns a result without panicking; on
the two one-character quote inputs the slice is out of bounds. -/
theorem dequote_no_panic_unless_lone_quote (s : String)
    (h : rust_trim s ≠ String.mk [quoteChar] ∧ rust_trim s ≠ String.mk [apostChar]) :
    (dequote s).isSome = true := by
  unfold dequote
  by_cases hcond : ((rust_trim s).data.head? = some quoteChar ∧
      (rust_trim s).data.getLast? = some quoteChar) ∨
      ((rust_trim s).data.head? = some apostChar ∧
      (rust_trim s).data.getLast? = some apostChar)
  · rw [if_pos hcond]
    have hlen : 2 ≤ (rust_trim s).data.length := by
      rcases hnil : (rust_trim s).data with _ | ⟨c, cs⟩
      · exfalso
        rw [hnil] at hcond
        simp [List.head?] at hcond
      · rcases hcs : cs with _ | ⟨c2, cs2⟩
        · exfalso
          rw [hcs] at hnil
          rw [hnil] at hcond
          have hval : c = quoteChar ∨ c = apostChar := by
            rcases hcond with ⟨h1, -⟩ | ⟨h1, -⟩
            · exact Or.inl (by simpa using h1)
            · exact Or.inr (by simpa using h1)
          rcases hval with hval | hval
          · exact h.1 (String.ext (by rw [hnil, hval]))
          · exact h.2 (String.ext (by rw [hnil, hval]))
        · simp
    rw [if_pos hlen]
    rfl
  · rw [if_neg hcond]
    rfl

/-- Witness for the amended C10 at the repository test's own input
`"xyz"` in double quotes: the trimmed form is not a lone quote, and
`dequote` returns a value. -/
theorem dequote_no_panic_witness :
    (rust_trim "\"xyz\"" ≠ String.mk [quoteChar] ∧
      rust_trim "\"xyz\"" ≠ String.mk [apostChar]) ∧
    (dequote "\"xyz\"").isSome = true :=
  ⟨⟨by decide, by decide⟩,
   dequote_no_panic_unless_lone_quote "\"xyz\"" ⟨by decide, by decide⟩⟩

end RssBot
